import Mathlib

/-!
Verification of the waiter registry and interaction-context layer of the
vesper (zephyrus) Discord command framework, shallowly embedded in Lean.

The embedding follows src/zephyrus/src/context.rs.  The waiter module
(new_pair, WaiterWaker, InteractionWaiter), the dispatcher delivery loop,
the DataIterator and the Parse trait are declared and used by context.rs
but their sources are not part of the fragment; those operations are
modelled from the specification, as marked in their doc comments.
Concurrency is embedded as sequential interleavings of atomic operations:
every registry operation in the source runs under the registry mutex, and
the specification requires the dispatcher to serialize deliveries, so a
trace is a list of atomic operations applied in order.
-/

namespace Vesper

/- Events fed to the registry are borrowed Discord Interaction payloads
in the source; the waiter mechanism treats them opaquely, so the
development is parametric in the event type. -/
section WaiterRegistry

variable {Ev : Type}

/-- Terminal signal delivered through a waiter's one-shot resolver:
either the matching event, or cancellation at teardown. -/
inductive Outcome (Ev : Type) where
  | resolvedWith (e : Ev)
  | cancelled

/-- One pending waiter: the registry entry created by wait_interaction.
The id names the one-shot resolver paired with the caller-facing waiter
handle (new_pair in the source); pred is the registered predicate. -/
structure WaiterEntry (Ev : Type) where
  id : Nat
  pred : Ev → Bool

/-- State of one waiter registry (the Mutex<Vec<WaiterWaker>> of the
source), together with the observables the claims speak about: nextId is
the supply of fresh resolver identities, log records every resolver
invocation in order (id of the resolver, signal delivered), and alive
records whether the owning session has been torn down. -/
structure RegState (Ev : Type) where
  pending : List (WaiterEntry Ev)
  nextId : Nat
  log : List (Nat × Outcome Ev)
  alive : Bool

/-- Embedding of SlashContext::wait_interaction (context.rs lines
150-158): create a fresh waker/waiter pair, push the waker onto the
shared vector under the lock, return the waiter handle (here: the fresh
resolver id paired with the appended entry). -/
def wait_interaction (s : RegState Ev) (p : Ev → Bool) : RegState Ev × Nat :=
  (⟨s.pending ++ [⟨s.nextId, p⟩], s.nextId + 1, s.log, s.alive⟩, s.nextId)

/-- Modelled from the spec: the scan step of event delivery (the
dispatcher loop feeding the registry is not in the fragment).  Scan the
pending entries in insertion order; at the first entry whose predicate
accepts the event, remove it and report the resolver invocation; later
entries are not inspected for removal. -/
def deliverScan (e : Ev) : List (WaiterEntry Ev) →
    List (WaiterEntry Ev) × Option (Nat × Outcome Ev)
  | [] => ([], none)
  | w :: ws =>
    if w.pred e then (ws, some (w.id, Outcome.resolvedWith e))
    else
      let r := deliverScan e ws
      (w :: r.1, r.2)

/-- Modelled from the spec: deliver(event) -> bool.  Acquire exclusive
access, scan in insertion order, remove the first matching entry and
invoke its resolver with the event; true exactly when some waiter
consumed the event. -/
def deliver (s : RegState Ev) (e : Ev) : RegState Ev × Bool :=
  match deliverScan e s.pending with
  | (ps, some entry) => (⟨ps, s.nextId, s.log ++ [entry], s.alive⟩, true)
  | (_, none) => (s, false)

/-- Modelled from the spec: teardown of the owning session (cancel_all).
Every still-pending waiter is resolved with the cancellation signal and
the registry is emptied and marked dead. -/
def cancel_all (s : RegState Ev) : RegState Ev :=
  ⟨[], s.nextId, s.log ++ s.pending.map (fun w => (w.id, Outcome.cancelled)), false⟩

/-- Registration failure mode named by the spec for a torn-down registry. -/
inductive RegError where
  | registryTornDown
deriving DecidableEq

/-- Modelled from the spec: registration against a possibly-dead
registry must fail fast once the registry has been torn down and cannot
fail otherwise (section 7, RegistrationFailure).  While alive it is
exactly the source's wait_interaction. -/
def registerChecked (s : RegState Ev) (p : Ev → Bool) :
    Except RegError (RegState Ev × Nat) :=
  if s.alive then Except.ok (wait_interaction s p) else Except.error RegError.registryTornDown

/-- Atomic operations on a registry: registering a waiter, delivering an
event, tearing the session down. -/
inductive Op (Ev : Type) where
  | register (p : Ev → Bool)
  | deliver (e : Ev)
  | teardown

/-- Effect of one atomic operation on the registry state. -/
def step (s : RegState Ev) : Op Ev → RegState Ev
  | Op.register p => (wait_interaction s p).1
  | Op.deliver e => (deliver s e).1
  | Op.teardown => cancel_all s

/-- Run a trace of atomic operations in order. -/
def run (s : RegState Ev) : List (Op Ev) → RegState Ev
  | [] => s
  | op :: ops => run (step s op) ops

end WaiterRegistry

/-- Registry of a freshly created interaction-processing context: no
pending waiters, no resolver ever invoked, alive. -/
def initState (Ev : Type) : RegState Ev := ⟨[], 0, [], true⟩

/-- Interaction payload fields the context methods read: id and token
(create_response and update_response address the interaction by these). -/
structure Interaction where
  id : Nat
  token : String
deriving DecidableEq

/-- InteractionClient made from an http client and the application id
(http_client.inner().interaction(application_id)). -/
structure InteractionClient where
  client : Nat
  application_id : Nat
deriving DecidableEq

/-- Embedding of http_client.inner().interaction(application_id). -/
def mkInteractionClient (http_client : Nat) (application_id : Nat) : InteractionClient :=
  ⟨http_client, application_id⟩

/-- Embedding of SlashContext (context.rs lines 54-67).  Borrowed
references (http client, shared data, the shared waiter vector) are
embedded as reference identities into a store; the interaction payload
is held by value. -/
structure SlashContext where
  http_client : Nat
  application_id : Nat
  interaction_client : InteractionClient
  data : Nat
  waiters : Nat
  interaction : Interaction
deriving DecidableEq

/-- Embedding of impl Clone for SlashContext (context.rs lines 69-80):
every reference field is copied, the interaction client is rebuilt from
the same http client and application id, and the interaction payload is
cloned by value. -/
def cloneCtx (c : SlashContext) : SlashContext :=
  { http_client := c.http_client
    application_id := c.application_id
    interaction_client := mkInteractionClient c.http_client c.application_id
    data := c.data
    waiters := c.waiters
    interaction := c.interaction }

/-- Store mapping each registry reference identity to the registry it
denotes (the heap holding every Mutex<Vec<WaiterWaker>>). -/
def Store (Ev : Type) := Nat → RegState Ev

/-- Embedding of wait_interaction called through a context: the shared
registry the context's waiters field refers to is updated in the store,
and the fresh waiter handle is returned. -/
def wait_interaction_via {Ev : Type} (store : Store Ev) (c : SlashContext)
    (p : Ev → Bool) : Store Ev × Nat :=
  let r := wait_interaction (store c.waiters) p
  (fun n => if n = c.waiters then r.1 else store n, r.2)

/-- Parse errors used by named_parse (context.rs lines 163-183).
Modelled from the spec: the Parse trait's error type is an external
collaborator whose source is not in the fragment; the variants are the
ones context.rs constructs and pattern-matches (StructureMismatch with a
message, Parsing with an argument_name field among others, and a
catch-all), with the remaining payloads kept abstract as strings. -/
inductive ParseError where
  | StructureMismatch (message : String)
  | Parsing (argument_name : String) (required : Bool) (argument_type : String)
      (error : String)
  | Other (message : String)
deriving DecidableEq

/-- Embedding of the map_err closure of named_parse (context.rs lines
176-181): a Parsing error has its argument_name field overwritten with
the given name; every other variant passes through unchanged. -/
def setArgumentName (name : String) : ParseError → ParseError
  | ParseError.Parsing _ r ty er => ParseError.Parsing name r ty er
  | e => e

/-- One element of the interaction's option data: the argument name and
its value (CommandDataOption). -/
structure DataOption where
  name : String
  value : String
deriving DecidableEq

/-- Modelled from the spec: DataIterator::get (the iter module is not in
the fragment; the spec treats the iterator as an opaque source of named
argument values).  Finds the first element satisfying the predicate,
removes it from the iterator and returns it; None and the unchanged
iterator when no element matches. -/
def DataIterator.get (p : DataOption → Bool) :
    List DataOption → Option DataOption × List DataOption
  | [] => (none, [])
  | o :: os =>
    if p o then (some o, os)
    else
      let r := DataIterator.get p os
      (r.1, o :: r.2)

/-- Behaviour of one Parse implementation, the type parameter T of
named_parse: whether the argument is required, and the parse function
taking the optionally found value.  Modelled from the spec: the Parse
trait is an external collaborator consumed as a function returning a
typed value or a structured parse error; the http client and shared
data it also receives do not enter the control flow modelled here. -/
structure ParseImpl (T : Type) where
  required : Bool
  parse : Option String → Except ParseError T

/-- Embedding of SlashContext::named_parse (context.rs lines 163-183):
look up the argument by name in the iterator; if it is absent and T is
required, fail with StructureMismatch; otherwise run T::parse on the
optionally found value, overwriting a Parsing error's argument_name
with the given name. -/
def named_parse {T : Type} (impl : ParseImpl T) (name : String)
    (iterator : List DataOption) : Except ParseError T × List DataOption :=
  let r := DataIterator.get (fun s => s.name == name) iterator
  if r.1.isNone && impl.required then
    (Except.error (ParseError.StructureMismatch (name ++ " not found")), r.2)
  else
    match impl.parse (r.1.map DataOption.value) with
    | Except.ok t => (Except.ok t, r.2)
    | Except.error e => (Except.error (setArgumentName name e), r.2)

/-- Response kinds used by the context methods. -/
inductive InteractionResponseType where
  | ChannelMessageWithSource
  | DeferredChannelMessageWithSource
deriving DecidableEq

/-- Interaction response payload: kind and optional data. -/
structure InteractionResponse where
  kind : InteractionResponseType
  data : Option String
deriving DecidableEq

/-- One create_response HTTP request: interaction id, token and the
response payload. -/
structure CreateResponseRequest where
  interaction_id : Nat
  token : String
  response : InteractionResponse
deriving DecidableEq

/-- Transport errors of the underlying HTTP client, kept abstract. -/
structure HttpError where
  message : String
deriving DecidableEq

/-- Embedding of SlashContext::acknowledge (context.rs lines 110-128).
The HTTP transport is a parameter mapping the issued request to its
outcome; conv embeds the From conversion of the caller's error type.
The result lists every request issued, the returned value, and the
context after the call (the method takes a shared reference and performs
no mutation, which the embedding makes explicit by returning it). -/
def acknowledge {E : Type} (conv : HttpError → E)
    (http : CreateResponseRequest → Except HttpError Unit) (c : SlashContext) :
    List CreateResponseRequest × Except E Unit × SlashContext :=
  let req : CreateResponseRequest :=
    ⟨c.interaction.id, c.interaction.token,
      ⟨InteractionResponseType.DeferredChannelMessageWithSource, none⟩⟩
  match http req with
  | Except.ok _ => ([req], Except.ok (), c)
  | Except.error e => ([req], Except.error (conv e), c)

/-- Predicate on numeric events used to build concrete registries. -/
def predEq (k : Nat) : Nat → Bool := fun e => e == k

theorem deliverScan_no_match {Ev : Type} (e : Ev) (l : List (WaiterEntry Ev))
    (h : ∀ w ∈ l, w.pred e = false) : deliverScan e l = (l, none) := by
  induction l with
  | nil => rfl
  | cons w ws ih =>
    have hw : w.pred e = false := h w (List.mem_cons_self _ _)
    simp [deliverScan, hw, ih fun v hv => h v (List.mem_cons_of_mem _ hv)]

theorem deliverScan_first_match {Ev : Type} (e : Ev) (l₁ l₂ : List (WaiterEntry Ev))
    (w : WaiterEntry Ev) (h₁ : ∀ v ∈ l₁, v.pred e = false) (hw : w.pred e = true) :
    deliverScan e (l₁ ++ w :: l₂) = (l₁ ++ l₂, some (w.id, Outcome.resolvedWith e)) := by
  induction l₁ with
  | nil => simp [deliverScan, hw]
  | cons v vs ih =>
    have hv : v.pred e = false := h₁ v (List.mem_cons_self _ _)
    simp [deliverScan, hv, ih fun u hu => h₁ u (List.mem_cons_of_mem _ hu)]

/-- C2: deliver scans the pending entries in insertion order; the first
entry whose predicate accepts the event is removed and its resolver is
invoked with the event, scanning stops, exactly one waiter consumes the
event, and every other entry, matching or not, stays pending. -/
theorem deliver_first_match_wins {Ev : Type} (s : RegState Ev) (e : Ev)
    (l₁ l₂ : List (WaiterEntry Ev)) (w : WaiterEntry Ev)
    (hp : s.pending = l₁ ++ w :: l₂)
    (h₁ : ∀ v ∈ l₁, v.pred e = false) (hw : w.pred e = true) :
    deliver s e =
      (⟨l₁ ++ l₂, s.nextId, s.log ++ [(w.id, Outcome.resolvedWith e)], s.alive⟩, true) := by
  have hscan := deliverScan_first_match e l₁ l₂ w h₁ hw
  simp [deliver, hp, hscan]

/-- Witness for deliver_first_match_wins: three pending waiters whose
predicates match events 1, 2, 2; delivering event 2 resolves the second
waiter only, and leaves the first and the third (also matching) pending. -/
theorem deliver_first_match_wins_witness :
    ((⟨[⟨0, predEq 1⟩, ⟨1, predEq 2⟩, ⟨2, predEq 2⟩], 3, [], true⟩ : RegState Nat).pending
        = [⟨0, predEq 1⟩] ++ (⟨1, predEq 2⟩ : WaiterEntry Nat) :: [⟨2, predEq 2⟩]) ∧
    (∀ v ∈ [(⟨0, predEq 1⟩ : WaiterEntry Nat)], v.pred 2 = false) ∧
    (⟨1, predEq 2⟩ : WaiterEntry Nat).pred 2 = true ∧
    deliver (⟨[⟨0, predEq 1⟩, ⟨1, predEq 2⟩, ⟨2, predEq 2⟩], 3, [], true⟩ : RegState Nat) 2 =
      (⟨[⟨0, predEq 1⟩] ++ [⟨2, predEq 2⟩], 3,
          [] ++ [((1 : Nat), Outcome.resolvedWith 2)], true⟩, true) := by
  refine ⟨rfl, ?_, rfl, ?_⟩
  · intro v hv
    rw [List.mem_singleton] at hv
    subst hv
    rfl
  · exact deliver_first_match_wins _ 2 [⟨0, predEq 1⟩] [⟨2, predEq 2⟩] ⟨1, predEq 2⟩ rfl
      (by intro v hv; rw [List.mem_singleton] at hv; subst hv; rfl) rfl

/-- C3: delivering an event matched by no pending predicate does not
consume the event (deliver returns false) and leaves the registry state,
hence its size and contents, completely unchanged. -/
theorem deliver_no_match_frame {Ev : Type} (s : RegState Ev) (e : Ev)
    (h : ∀ w ∈ s.pending, w.pred e = false) :
    deliver s e = (s, false) := by
  simp [deliver, deliverScan_no_match e s.pending h]

/-- Witness for deliver_no_match_frame: a registry with two pending
waiters for events 1 and 2; delivering event 7 is not consumed and the
state is unchanged. -/
theorem deliver_no_match_frame_witness :
    (∀ w ∈ (⟨[⟨0, predEq 1⟩, ⟨1, predEq 2⟩], 2, [], true⟩ : RegState Nat).pending,
        w.pred 7 = false) ∧
    deliver (⟨[⟨0, predEq 1⟩, ⟨1, predEq 2⟩], 2, [], true⟩ : RegState Nat) 7 =
      (⟨[⟨0, predEq 1⟩, ⟨1, predEq 2⟩], 2, [], true⟩, false) := by
  have h : ∀ w ∈ (⟨[⟨0, predEq 1⟩, ⟨1, predEq 2⟩], 2, [], true⟩ : RegState Nat).pending,
      w.pred 7 = false := by
    intro w hw
    rw [List.mem_cons, List.mem_singleton] at hw
    rcases hw with hw | hw <;> subst hw <;> rfl
  exact ⟨h, deliver_no_match_frame _ 7 h⟩

/-- C4: wait_interaction always succeeds: it appends exactly one entry
holding the given predicate with a fresh resolver id, the registry grows
by exactly one with every previously pending entry unchanged in place,
the resolution log and liveness are untouched, and the returned waiter
handle is paired with the appended entry's resolver id. -/
theorem wait_interaction_appends {Ev : Type} (s : RegState Ev) (p : Ev → Bool) :
    (wait_interaction s p).1.pending = s.pending ++ [⟨s.nextId, p⟩] ∧
    (wait_interaction s p).1.pending.length = s.pending.length + 1 ∧
    (wait_interaction s p).2 = s.nextId ∧
    (wait_interaction s p).1.log = s.log ∧
    (wait_interaction s p).1.alive = s.alive ∧
    (wait_interaction s p).1.nextId = s.nextId + 1 := by
  simp [wait_interaction]

/-- C5: registration fails fast, with the torn-down error, exactly when
the registry has already been torn down; while the registry is alive it
cannot fail and behaves as the source's wait_interaction. -/
theorem registerChecked_fail_fast {Ev : Type} (s : RegState Ev) (p : Ev → Bool) :
    (s.alive = false → registerChecked s p = Except.error RegError.registryTornDown) ∧
    (s.alive = true → registerChecked s p = Except.ok (wait_interaction s p)) := by
  cases h : s.alive <;> simp [registerChecked, h]

/-- Witness for registerChecked_fail_fast: registration on a torn-down
registry errors; registration on a fresh live registry succeeds. -/
theorem registerChecked_fail_fast_witness :
    registerChecked (⟨[], 0, [], false⟩ : RegState Nat) (predEq 1) =
      Except.error RegError.registryTornDown ∧
    registerChecked (initState Nat) (predEq 1) =
      Except.ok (wait_interaction (initState Nat) (predEq 1)) :=
  ⟨(registerChecked_fail_fast (⟨[], 0, [], false⟩ : RegState Nat) (predEq 1)).1 rfl,
    (registerChecked_fail_fast (initState Nat) (predEq 1)).2 rfl⟩

/-- C6: tearing the session down resolves every still-pending waiter
with the cancellation signal: afterwards nothing is pending, the registry
is dead, the log keeps every earlier resolution and gains a cancellation
record for each formerly pending waiter, so no waiter is left
unresolved. -/
theorem cancel_all_resolves_all {Ev : Type} (s : RegState Ev) :
    (cancel_all s).pending = [] ∧
    (cancel_all s).alive = false ∧
    (cancel_all s).log = s.log ++ s.pending.map (fun w => (w.id, Outcome.cancelled)) ∧
    ∀ w ∈ s.pending, (w.id, Outcome.cancelled) ∈ (cancel_all s).log := by
  refine ⟨rfl, rfl, rfl, ?_⟩
  intro w hw
  simp only [cancel_all, List.mem_append, List.mem_map]
  exact Or.inr ⟨w, hw, rfl⟩

/-- Witness for cancel_all_resolves_all: a registry with one pending
waiter; teardown empties it, marks it dead, and logs the cancellation of
that waiter. -/
theorem cancel_all_resolves_all_witness :
    (cancel_all (⟨[⟨0, predEq 1⟩], 1, [], true⟩ : RegState Nat)).pending = [] ∧
    (cancel_all (⟨[⟨0, predEq 1⟩], 1, [], true⟩ : RegState Nat)).alive = false ∧
    ((0 : Nat), (Outcome.cancelled : Outcome Nat)) ∈
      (cancel_all (⟨[⟨0, predEq 1⟩], 1, [], true⟩ : RegState Nat)).log := by
  have h := cancel_all_resolves_all (⟨[⟨0, predEq 1⟩], 1, [], true⟩ : RegState Nat)
  exact ⟨h.1, h.2.1, h.2.2.2 ⟨0, predEq 1⟩ (List.mem_singleton.mpr rfl)⟩

/-- C7: a cloned SlashContext holds the same shared registry reference
(and the same http client, application id and shared data references,
and an equal interaction payload), so registering a waiter through the
clone updates exactly the registry the original's waiters field refers
to, with the same resulting store and waiter handle. -/
theorem clone_shares_registry (c : SlashContext) :
    (cloneCtx c).waiters = c.waiters ∧
    (cloneCtx c).http_client = c.http_client ∧
    (cloneCtx c).application_id = c.application_id ∧
    (cloneCtx c).data = c.data ∧
    (cloneCtx c).interaction = c.interaction ∧
    ∀ (Ev : Type) (store : Store Ev) (p : Ev → Bool),
      wait_interaction_via store (cloneCtx c) p = wait_interaction_via store c p ∧
      (wait_interaction_via store (cloneCtx c) p).1 c.waiters =
        (wait_interaction (store c.waiters) p).1 := by
  refine ⟨rfl, rfl, rfl, rfl, rfl, ?_⟩
  intro Ev store p
  constructor
  · rfl
  · simp [wait_interaction_via, cloneCtx]

/-- Multiset of resolver ids a registry state has ever handed out:
those still pending plus those whose resolver has been invoked. -/
def usedIds {Ev : Type} (s : RegState Ev) : Multiset Nat :=
  (s.pending.map WaiterEntry.id : Multiset Nat) + (s.log.map Prod.fst : Multiset Nat)

/-- Registry invariant: no resolver id occurs twice among the pending
entries and the resolver invocations together, and every handed-out id
is below the fresh-id supply. -/
def RegInv {Ev : Type} (s : RegState Ev) : Prop :=
  (usedIds s).Nodup ∧ ∀ i ∈ usedIds s, i < s.nextId

theorem deliverScan_ids {Ev : Type} (e : Ev) (l : List (WaiterEntry Ev)) :
    ((deliverScan e l).1.map WaiterEntry.id : Multiset Nat) +
      ((deliverScan e l).2.toList.map Prod.fst : Multiset Nat) =
      (l.map WaiterEntry.id : Multiset Nat) := by
  induction l with
  | nil => simp [deliverScan]
  | cons w ws ih =>
    by_cases hw : w.pred e = true
    · simp [deliverScan, hw, add_comm]
    · have hw' : w.pred e = false := by simpa using hw
      simp only [deliverScan, hw', Bool.false_eq_true, if_false, List.map_cons]
      rw [← Multiset.cons_coe, ← Multiset.cons_coe, Multiset.cons_add, ih]

theorem step_inv {Ev : Type} (s : RegState Ev) (op : Op Ev) (h : RegInv s) :
    RegInv (step s op) := by
  obtain ⟨hnd, hlt⟩ := h
  cases op with
  | register p =>
    have hids : usedIds (step s (Op.register p)) = s.nextId ::ₘ usedIds s := by
      simp only [usedIds, step, wait_interaction, List.map_append, List.map_cons,
        List.map_nil, Multiset.coe_add, Multiset.cons_coe]
      apply Multiset.coe_eq_coe.mpr
      rw [List.append_assoc, List.singleton_append]
      exact List.perm_middle
    constructor
    · rw [hids, Multiset.nodup_cons]
      refine ⟨fun hmem => ?_, hnd⟩
      exact lt_irrefl s.nextId (hlt s.nextId hmem)
    · rw [hids]
      intro i hi
      rw [Multiset.mem_cons] at hi
      have hnext : (step s (Op.register p)).nextId = s.nextId + 1 := rfl
      rw [hnext]
      rcases hi with hi | hi
      · omega
      · exact Nat.lt_succ_of_lt (hlt i hi)
  | deliver e =>
    rcases hsc : deliverScan e s.pending with ⟨ps, r⟩
    have hids := deliverScan_ids e s.pending
    rw [hsc] at hids
    cases r with
    | none =>
      have hstep : step s (Op.deliver e) = s := by
        simp [step, deliver, hsc]
      rw [hstep]
      exact ⟨hnd, hlt⟩
    | some entry =>
      have hstep : step s (Op.deliver e) = ⟨ps, s.nextId, s.log ++ [entry], s.alive⟩ := by
        simp [step, deliver, hsc]
      simp only [Option.toList_some, List.map_cons, List.map_nil,
        Multiset.coe_add] at hids
      have hids' := Multiset.coe_eq_coe.mp hids
      have hused : usedIds (step s (Op.deliver e)) = usedIds s := by
        rw [hstep]
        simp only [usedIds, List.map_append, List.map_cons, List.map_nil,
          Multiset.coe_add]
        apply Multiset.coe_eq_coe.mpr
        have h1 : (ps.map WaiterEntry.id ++
            (s.log.map Prod.fst ++ [entry.1])).Perm
              (ps.map WaiterEntry.id ++ ([entry.1] ++ s.log.map Prod.fst)) :=
          List.Perm.append_left _ List.perm_append_comm
        have h2 := hids'.append_right (s.log.map Prod.fst)
        rw [List.append_assoc] at h2
        exact h1.trans h2
      have hnext : (step s (Op.deliver e)).nextId = s.nextId := by rw [hstep]
      rw [RegInv, hused, hnext]
      exact ⟨hnd, hlt⟩
  | teardown =>
    have hused : usedIds (step s Op.teardown) = usedIds s := by
      simp only [step, cancel_all, usedIds, List.map_nil, List.map_append, List.map_map,
        Multiset.coe_add, Multiset.coe_nil, zero_add]
      exact Multiset.coe_eq_coe.mpr List.perm_append_comm
    have hnext : (step s Op.teardown).nextId = s.nextId := rfl
    rw [RegInv, hused, hnext]
    exact ⟨hnd, hlt⟩

theorem run_inv {Ev : Type} (ops : List (Op Ev)) (s : RegState Ev) (h : RegInv s) :
    RegInv (run s ops) := by
  induction ops generalizing s with
  | nil => exact h
  | cons op ops ih => exact ih _ (step_inv s op h)

/-- C1: across any trace of register, deliver and teardown operations on
a fresh registry, every resolver is invoked at most once: the resolution
log never records two invocations (resolve or cancel) of the same
resolver id, so a matched-and-removed entry can never be observed or
re-resolved by a later delivery or teardown. -/
theorem at_most_once_resolution {Ev : Type} (ops : List (Op Ev)) :
    ((run (initState Ev) ops).log.map Prod.fst).Nodup := by
  have hinit : RegInv (initState Ev) := by
    constructor
    · simp [usedIds, initState]
    · intro i hi
      simp [usedIds, initState] at hi
  have h := (run_inv ops (initState Ev) hinit).1
  rw [usedIds, Multiset.nodup_add] at h
  exact Multiset.coe_nodup.mp h.2.1

theorem DataIterator.get_none {p : DataOption → Bool} {l : List DataOption}
    (h : ∀ o ∈ l, p o = false) : DataIterator.get p l = (none, l) := by
  induction l with
  | nil => rfl
  | cons o os ih =>
    have ho : p o = false := h o (List.mem_cons_self _ _)
    simp [DataIterator.get, ho, ih fun u hu => h u (List.mem_cons_of_mem _ hu)]

/-- Parse implementation used as a concrete input: a required argument
whose parse always fails with a Parsing error naming a different
argument. -/
def parseBoom : ParseImpl Nat :=
  ⟨true, fun _ => Except.error (ParseError.Parsing "other" true "Integer" "boom")⟩

/-- Counterexample to C8 as stated: with the argument present, named_parse
does not return T::parse's result verbatim; a Parsing error naming
another argument comes back with its argument_name overwritten. -/
theorem named_parse_result_rewritten_cex :
    (named_parse parseBoom "foo" [⟨"foo", "v"⟩]).1 ≠ parseBoom.parse (some "v") := by
  simp [named_parse, parseBoom, DataIterator.get, setArgumentName]

/-- C8 (amended): when the iterator has no element named name and T is
required, named_parse fails with StructureMismatch "name not found"
without consulting T::parse; in every other case it invokes T::parse on
the optionally found value and returns its result, except that a Parsing
error has its argument_name overwritten with the given name. -/
theorem named_parse_lookup_spec {T : Type} (impl : ParseImpl T) (name : String)
    (iterator : List DataOption) :
    ((∀ o ∈ iterator, (o.name == name) = false) → impl.required = true →
      (named_parse impl name iterator).1 =
        Except.error (ParseError.StructureMismatch (name ++ " not found"))) ∧
    ((DataIterator.get (fun s => s.name == name) iterator).1.isSome ∨
        impl.required = false →
      (named_parse impl name iterator).1 =
        Except.mapError (setArgumentName name)
          (impl.parse
            ((DataIterator.get (fun s => s.name == name) iterator).1.map
              DataOption.value))) := by
  constructor
  · intro habs hreq
    simp [named_parse, DataIterator.get_none habs, hreq]
  · intro hcase
    have hcond : ((DataIterator.get (fun s => s.name == name) iterator).1.isNone &&
        impl.required) = false := by
      cases h' : (DataIterator.get (fun s => s.name == name) iterator).1 <;> simp_all
    simp only [named_parse, hcond, Bool.false_eq_true, if_false]
    cases hp : impl.parse ((DataIterator.get (fun s => s.name == name) iterator).1.map
        DataOption.value) with
    | ok t => simp [Except.mapError, hp]
    | error e => simp [Except.mapError, hp]

/-- Witness for named_parse_lookup_spec: a required argument "foo" absent
from the iterator yields the not-found error regardless of the parse
function; with "foo" present the result is parse's result passed through
the argument_name rewrite. -/
theorem named_parse_lookup_spec_witness :
    (named_parse parseBoom "foo" [⟨"bar", "v"⟩]).1 =
      Except.error (ParseError.StructureMismatch ("foo" ++ " not found")) ∧
    (named_parse parseBoom "foo" [⟨"foo", "v"⟩]).1 =
      Except.mapError (setArgumentName "foo")
        (parseBoom.parse
          ((DataIterator.get (fun s => s.name == "foo") [⟨"foo", "v"⟩]).1.map
            DataOption.value)) :=
  ⟨(named_parse_lookup_spec parseBoom "foo" [⟨"bar", "v"⟩]).1
      (by intro o ho; rw [List.mem_singleton] at ho; subst ho; rfl) rfl,
    (named_parse_lookup_spec parseBoom "foo" [⟨"foo", "v"⟩]).2 (Or.inl rfl)⟩

/-- C9: when the inner T::parse call fails with a Parsing error,
named_parse overwrites that error's argument_name field with the given
name before returning it; every other error variant is propagated
unchanged.  The hypothesis excludes the required-and-absent case, where
T::parse is never invoked. -/
theorem named_parse_parsing_error_renamed {T : Type} (impl : ParseImpl T)
    (name : String) (iterator : List DataOption)
    (hnd : ((DataIterator.get (fun s => s.name == name) iterator).1.isNone &&
        impl.required) = false) :
    (∀ a r ty er,
      impl.parse ((DataIterator.get (fun s => s.name == name) iterator).1.map
          DataOption.value) = Except.error (ParseError.Parsing a r ty er) →
        (named_parse impl name iterator).1 =
          Except.error (ParseError.Parsing name r ty er)) ∧
    (∀ e,
      impl.parse ((DataIterator.get (fun s => s.name == name) iterator).1.map
          DataOption.value) = Except.error e →
        (∀ a r ty er, e ≠ ParseError.Parsing a r ty er) →
        (named_parse impl name iterator).1 = Except.error e) := by
  constructor
  · intro a r ty er hp
    simp [named_parse, hnd, hp, setArgumentName]
  · intro e hp hne
    have hse : setArgumentName name e = e := by
      cases e with
      | Parsing a r ty er => exact absurd rfl (hne a r ty er)
      | StructureMismatch m => rfl
      | Other m => rfl
    simp [named_parse, hnd, hp, hse]

/-- Parse implementation whose failure is not a Parsing error. -/
def parseKaput : ParseImpl Nat :=
  ⟨true, fun _ => Except.error (ParseError.Other "kaput")⟩

/-- Witness for named_parse_parsing_error_renamed: a Parsing error naming
"other" comes back as a Parsing error naming "foo"; an Other error comes
back unchanged. -/
theorem named_parse_parsing_error_renamed_witness :
    (named_parse parseBoom "foo" [⟨"foo", "v"⟩]).1 =
      Except.error (ParseError.Parsing "foo" true "Integer" "boom") ∧
    (named_parse parseKaput "foo" [⟨"foo", "v"⟩]).1 =
      Except.error (ParseError.Other "kaput") :=
  ⟨(named_parse_parsing_error_renamed parseBoom "foo" [⟨"foo", "v"⟩] rfl).1
      "other" true "Integer" "boom" rfl,
    (named_parse_parsing_error_renamed parseKaput "foo" [⟨"foo", "v"⟩] rfl).2
      (ParseError.Other "kaput") rfl
      (by intro a r ty er h; exact ParseError.noConfusion h)⟩

/-- C10: acknowledge issues exactly one create_response request, carrying
the context's interaction id and token, the DeferredChannelMessageWithSource
kind and no data; it returns Ok exactly when the transport call succeeds
and otherwise the transport error converted through From; the context is
returned unchanged. -/
theorem acknowledge_spec {E : Type} (conv : HttpError → E)
    (http : CreateResponseRequest → Except HttpError Unit) (c : SlashContext) :
    (acknowledge conv http c).1 =
        [⟨c.interaction.id, c.interaction.token,
          ⟨InteractionResponseType.DeferredChannelMessageWithSource, none⟩⟩] ∧
    (acknowledge conv http c).2.2 = c ∧
    ((acknowledge conv http c).2.1 = Except.ok () ↔
      http ⟨c.interaction.id, c.interaction.token,
        ⟨InteractionResponseType.DeferredChannelMessageWithSource, none⟩⟩ =
          Except.ok ()) ∧
    (∀ er, http ⟨c.interaction.id, c.interaction.token,
        ⟨InteractionResponseType.DeferredChannelMessageWithSource, none⟩⟩ =
          Except.error er →
      (acknowledge conv http c).2.1 = Except.error (conv er)) := by
  cases hh : http ⟨c.interaction.id, c.interaction.token,
      ⟨InteractionResponseType.DeferredChannelMessageWithSource, none⟩⟩ with
  | ok u => refine ⟨?_, ?_, ?_, ?_⟩ <;> simp [acknowledge, hh]
  | error e => refine ⟨?_, ?_, ?_, ?_⟩ <;> simp [acknowledge, hh]

/-- Concrete context used as witness input. -/
def ctx0 : SlashContext :=
  ⟨7, 9, mkInteractionClient 7 9, 1, 4, ⟨11, "tok"⟩⟩

/-- Witness for acknowledge_spec: with a transport that fails, the
converted transport error is returned. -/
theorem acknowledge_spec_witness :
    (acknowledge (fun h => h) (fun _ => Except.error ⟨"down"⟩) ctx0).2.1 =
      Except.error (HttpError.mk "down") :=
  (acknowledge_spec (fun h => h) (fun _ => Except.error ⟨"down"⟩) ctx0).2.2.2
    ⟨"down"⟩ rfl

end Vesper
